import Mathlib

set_option linter.unusedVariables false
set_option maxRecDepth 100000

/- Verification of the FITS codec of warwick-one-metre/superwasp-talon
   (src/src/libs/astro/sphcart.c, FITS section). Header cards are 80-column
   character rows; the header store is an ordered list of rows; pixels are
   unsigned 16-bit samples stored as naturals below 65536. -/

/-- Number of 80-column rows per FITS header block (FITS_HROWS in fits.h; one
block is 2880 bytes = 36 rows of 80 columns, per the on-disk format). -/
def FITS_HROWS : Nat := 36

/-- Number of columns of one header card (FITS_HCOLS in fits.h). -/
def FITS_HCOLS : Nat := 80

/-- The C type FITSRow is a fixed 80-byte character array; modelled as a list of
characters (length 80 everywhere the code builds one). -/
abbrev FITSRow := List Char

/-- Additive pixel bias, the default build value (no SET_BZERO override). -/
def BZERO : Nat := 32768

/-- The single-quote character, ASCII 39. -/
def squoteChar : Char := Char.ofNat 39

/-- The NUL character, ASCII 0. -/
def nulChar : Char := Char.ofNat 0

/-- Left-justify into a field of width n, truncating beyond n and padding with
blanks: C sprintf "%-n.ns". -/
def leftJust (n : Nat) (cs : List Char) : List Char :=
  cs.take n ++ List.replicate (n - cs.length) ' '

/-- Format a keyword into the 8-column name field: sprintf "%-8.8s" as done by
findFImageVar and every card formatter. -/
def padName (name : List Char) : List Char := leftJust 8 name

/-- Translation of the FImage struct (fits.h): derived scalar fields, the header
card array var (nvar is its length), and the optional owned pixel buffer. The
source field named by is called byv here because by is reserved in Lean. -/
structure FImage where
  bitpix : Int := 0
  sw : Int := 0
  sh : Int := 0
  sx : Int := 0
  sy : Int := 0
  bx : Int := 0
  byv : Int := 0
  dur : Int := 0
  var : List FITSRow := []
  image : Option (List Nat) := none
  deriving DecidableEq, Repr

/-- Translation of initFImage: zero every field, then set both binning factors
to 1 (memset 0, fip->bx = fip->by = 1). -/
def initFImage : FImage :=
  { bitpix := 0, sw := 0, sh := 0, sx := 0, sy := 0, bx := 1, byv := 1, dur := 0,
    var := [], image := none }

/-- Translation of resetFImage: free the card array and the pixel buffer, then
initFImage; the result is always the initialized default state. -/
def resetFImage (_fip : FImage) : FImage := initFImage

/-- Index of the first card whose first 8 columns equal the already padded field
name; helper for findFImageVar (the C code returns a pointer into the array,
modelled by an index). -/
def findVarIdx (var : List FITSRow) (field : List Char) : Option Nat :=
  match var with
  | [] => none
  | r :: rest =>
    if r.take 8 = field then some 0
    else (findVarIdx rest field).map (· + 1)

/-- Translation of findFImageVar: sprintf "%-8.8s" the query name, then return
the first card agreeing on the first 8 bytes (strncmp ... 8). -/
def findFImageVar (fip : FImage) (name : List Char) : Option FITSRow :=
  match findVarIdx fip.var (padName name) with
  | some i => fip.var[i]?
  | none => none

/-- Translation of addFImageVar: grow the array by one row and memcpy the first
FITS_HCOLS bytes of the row into the new last slot. The C allocation-failure
path (which silently drops the row) is not modelled. -/
def addFImageVar (fip : FImage) (row : FITSRow) : FImage :=
  { fip with var := fip.var ++ [row.take FITS_HCOLS] }

/-- Translation of fmtInlineComment: overwrite columns 31..80 of the line with
" / " plus the comment truncated/padded to 47 columns, or with 50 blanks. -/
def fmtInlineComment (line : List Char) (comment : Option (List Char)) : List Char :=
  let buf : List Char :=
    match comment with
    | some c => ' ' :: '/' :: ' ' :: leftJust 47 c
    | none => List.replicate 50 ' '
  line.take 30 ++ buf

/-- Translation of fmtLogicalFITS: sprintf "%-8.8s=%20s%c" putting T or F in
column 30, then the inline comment. -/
def fmtLogicalFITS (name : List Char) (value : Int) (comment : Option (List Char)) : List Char :=
  fmtInlineComment
    (padName name ++ '=' :: (List.replicate 20 ' ' ++ [if value ≠ 0 then 'T' else 'F']))
    comment

/-- Decimal rendering of an integer, C printf %d. -/
def intChars (v : Int) : List Char := (toString v).toList

/-- Translation of fmtIntFITS: sprintf "%-8.8s= %*s%s" right-justifying the
decimal value so it ends in column 30, then the inline comment. -/
def fmtIntFITS (name : List Char) (value : Int) (comment : Option (List Char)) : List Char :=
  let str := intChars value
  fmtInlineComment
    (padName name ++ '=' :: ' ' :: (List.replicate (20 - str.length) ' ' ++ str))
    comment

/-- Translation of fmtENDFITS: sprintf "%-79s" of END followed by forcing a
blank into the last column, giving END plus 77 blanks. -/
def fmtENDFITS : List Char :=
  'E' :: 'N' :: 'D' :: List.replicate 77 ' '

/-- Translation of setLogicalFITS: rewrite the first card with this name in
place if present, else append a fresh card. -/
def setLogicalFITS (fip : FImage) (name : List Char) (v : Int) (comment : Option (List Char)) : FImage :=
  match findVarIdx fip.var (padName name) with
  | some i => { fip with var := fip.var.set i (fmtLogicalFITS name v comment) }
  | none => addFImageVar fip (fmtLogicalFITS name v comment)

/-- Translation of setIntFITS: rewrite the first card with this name in place
if present, else append a fresh card. -/
def setIntFITS (fip : FImage) (name : List Char) (v : Int) (comment : Option (List Char)) : FImage :=
  match findVarIdx fip.var (padName name) with
  | some i => { fip with var := fip.var.set i (fmtIntFITS name v comment) }
  | none => addFImageVar fip (fmtIntFITS name v comment)

/-- Continuation rows of setCommentFITS: while text remains, emit a card
"%-8.8s... %-68.68s" and advance by 68 characters. -/
def commentContRows (name : List Char) (rem : List Char) : List (List Char) :=
  if h : rem.length = 0 then []
  else
    (padName name ++ '.' :: '.' :: '.' :: ' ' :: leftJust 68 rem)
      :: commentContRows name (rem.drop 68)
termination_by rem.length
decreasing_by
  simp only [List.length_drop]
  omega

/-- Card rows produced by setCommentFITS: nothing for empty text, else a first
card "%-8.8s%-72.72s" followed by continuation cards for the text past 72. -/
def commentRows (name : List Char) (comment : List Char) : List (List Char) :=
  if comment.length = 0 then []
  else (padName name ++ leftJust 72 comment) :: commentContRows name (comment.drop 72)

/-- Translation of setCommentFITS: append the formatted comment rows (none at
all when the text is empty, since the loop bound is strlen(comment)). -/
def setCommentFITS (fip : FImage) (name : List Char) (comment : List Char) : FImage :=
  (commentRows name comment).foldl addFImageVar fip

/-- C isspace in the default locale. -/
def isSpaceC (c : Char) : Bool := c.toNat = 32 || (9 ≤ c.toNat && c.toNat ≤ 13)

/-- Digit-accumulating loop of atoi. -/
def atoiDigits : List Char → Int → Int
  | [], acc => acc
  | c :: cs, acc =>
    if c.isDigit then atoiDigits cs (acc * 10 + (c.toNat - 48 : Nat)) else acc

/-- Translation of C atoi: skip whitespace, optional sign, then decimal digits.
Modelled with unbounded integers; C int overflow is undefined and unreachable
for the cards the claims involve. -/
def atoi (cs : List Char) : Int :=
  let cs1 := cs.dropWhile isSpaceC
  match cs1 with
  | '-' :: rest => - atoiDigits rest 0
  | '+' :: rest => atoiDigits rest 0
  | _ => atoiDigits cs1 0

/-- Translation of getLogicalFITS: look at column 30 of the found card and
accept T/t/F/f only. -/
def getLogicalFITS (fip : FImage) (name : List Char) : Option Bool :=
  match findFImageVar fip name with
  | none => none
  | some rp =>
    match rp.getD 29 nulChar with
    | 'T' => some true
    | 't' => some true
    | 'F' => some false
    | 'f' => some false
    | _ => none

/-- Translation of getIntFITS: atoi starting at column 11 of the found card.
The C call parses the raw row bytes; modelled on the remaining 70 columns. -/
def getIntFITS (fip : FImage) (name : List Char) : Option Int :=
  (findFImageVar fip name).map (fun rp => atoi (rp.drop 10))

/-- Digit-accumulating loop for the strtod model, returning the value and the
unconsumed input. -/
def parseDigits : List Char → Nat → Nat × List Char
  | c :: cs, acc =>
    if c.isDigit then parseDigits cs (acc * 10 + (c.toNat - 48)) else (acc, c :: cs)
  | [], acc => (acc, [])

/-- Fraction-digit loop for the strtod model, accumulating numerator and the
power-of-ten denominator. -/
def parseFrac : List Char → Nat → Nat → Nat × Nat × List Char
  | c :: cs, num, den =>
    if c.isDigit then parseFrac cs (num * 10 + (c.toNat - 48)) (den * 10)
    else (num, den, c :: cs)
  | [], num, den => (num, den, [])

/-- Translation of C atof (strtod) restricted to decimal forms: optional
whitespace and sign, integer part, optional fraction, optional e/E exponent
with optional sign. Values are exact rationals; double rounding and the
hex/inf/nan forms of strtod are not modelled (no claim depends on them). -/
def atofQ (cs0 : List Char) : ℚ :=
  let cs := cs0.dropWhile isSpaceC
  let sgn : Bool × List Char :=
    match cs with
    | '-' :: r => (true, r)
    | '+' :: r => (false, r)
    | _ => (false, cs)
  let ip := parseDigits sgn.2 0
  let frac : Nat × Nat × List Char :=
    match ip.2 with
    | '.' :: r => parseFrac r 0 1
    | _ => (0, 1, ip.2)
  let mant : ℚ := (ip.1 : ℚ) + (frac.1 : ℚ) / (frac.2.1 : ℚ)
  let ex : Int :=
    match frac.2.2 with
    | c :: r =>
      if c = 'e' || c = 'E' then
        match r with
        | '-' :: r2 => - (Int.ofNat (parseDigits r2 0).1)
        | '+' :: r2 => Int.ofNat (parseDigits r2 0).1
        | _ => Int.ofNat (parseDigits r 0).1
      else 0
    | [] => 0
  let v := mant * (10 : ℚ) ^ ex
  if sgn.1 then -v else v

/-- Replace the first D or d with e: the FITS legacy exponent-marker fix done by
getRealFITS before calling atof. -/
def subDtoE : List Char → List Char
  | [] => []
  | c :: cs => if c = 'D' || c = 'd' then 'e' :: cs else c :: subDtoE cs

/-- Translation of getRealFITS: copy 30 characters starting at column 11,
substitute the Fortran exponent marker, then atof. -/
def getRealFITS (fip : FImage) (name : List Char) : Option ℚ :=
  (findFImageVar fip name).map (fun rp => atofQ (subDtoE ((rp.drop 10).take 30)))

/-- Truncation toward zero of a rational: the C double-to-int cast. -/
def truncQ (q : ℚ) : Int := Int.tdiv q.num (q.den : Int)

/-- Translation of getCommentFITS: memcpy the first 72 bytes of the found card
into the caller's buffer, then write NUL into byte index 72 OF THE CARD held in
the store (rp[72] = 0 in the source acts on the row pointer, not the buffer).
Returns the updated buffer and the updated descriptor. -/
def getCommentFITS (fip : FImage) (name : List Char) (buf : List Char) :
    Option (List Char × FImage) :=
  match findVarIdx fip.var (padName name) with
  | none => none
  | some i =>
    match fip.var[i]? with
    | none => none
    | some rp =>
      some (rp.take 72 ++ buf.drop 72,
            { fip with var := fip.var.set i (rp.set 72 nulChar) })

/-- Drop trailing blanks: the backing-up loop at the close quote of
getStringFITS. -/
def stripTrailingSpaces (cs : List Char) : List Char :=
  (cs.reverse.dropWhile (· = ' ')).reverse

/-- Translation of getStringFITS: require a quote in column 11, then copy
characters of columns 12..80 until a second quote, stripping trailing blanks;
fail (not found) when either quote is missing. -/
def getStringFITS (fip : FImage) (name : List Char) : Option (List Char) :=
  match findFImageVar fip name with
  | none => none
  | some rp =>
    if rp.getD 10 nulChar ≠ squoteChar then none
    else
      let tail := (rp.drop 11).take 69
      if tail.contains squoteChar then
        some (stripTrailingSpaces (tail.takeWhile (· ≠ squoteChar)))
      else none

/-- Translation of the per-pixel body of enFITSPixels: subtract BZERO in C int
arithmetic and store into the unsigned short (its 16-bit two's complement
value m); on a little-endian host the shift/mask pair additionally swaps the
two bytes of m. -/
def enFITSPixel (lend : Bool) (v : Nat) : Nat :=
  let m : Nat := (((v : Int) - (BZERO : Int)) % 65536).toNat
  if lend then (m % 256) * 256 + (m / 256) % 256 else m

/-- Translation of enFITSPixels over a whole buffer of npix = length pixels. -/
def enFITSPixels (lend : Bool) (buf : List Nat) : List Nat :=
  buf.map (enFITSPixel lend)

/-- Translation of the per-pixel body of unFITSPixels: on a little-endian host,
((p0 shl 8) or ((p0 shr 8) and 255)) + BZERO truncated to the unsigned short;
on a big-endian host p0 + BZERO truncated. The stored pixel p is an unsigned
short, so p < 65536 wherever this is applied. -/
def unFITSPixel (lend : Bool) (p : Nat) : Nat :=
  if lend then (p * 256 + (p / 256) % 256 + BZERO) % 65536
  else (p + BZERO) % 65536

/-- Translation of unFITSPixels over a whole buffer. -/
def unFITSPixels (lend : Bool) (buf : List Nat) : List Nat :=
  buf.map (unFITSPixel lend)

/-- The 4-byte swap of unFITSPixelsInt and unFITSPixelsFloat: the shift/mask
chain reverses the four bytes of a 32-bit word. -/
def swap32 (p : Nat) : Nat :=
  (p % 256) * 16777216 + ((p / 256) % 256) * 65536
    + ((p / 65536) % 256) * 256 + (p / 16777216) % 256

/-- Translation of the per-word body of unFITSPixelsInt: byte swap on a
little-endian host, then add BZERO in the 32-bit word. -/
def unFITSPixelInt (lend : Bool) (w : Nat) : Nat :=
  if lend then (swap32 w + BZERO) % 4294967296
  else (w + BZERO) % 4294967296

/-- Translation of the per-word body of unFITSPixelsFloat: byte swap on a
little-endian host, nothing at all on a big-endian host. -/
def unFITSPixelFloatWord (lend : Bool) (w : Nat) : Nat :=
  if lend then swap32 w else w

/-- Value of an IEEE-754 binary32 bit pattern: a finite exact rational, an
infinity, or NaN. -/
inductive F32Val where
  | finite (q : ℚ)
  | posInf
  | negInf
  | nan
  deriving DecidableEq, Repr

/-- Decode an IEEE-754 binary32 word: sign bit 31, exponent bits 23..30,
fraction bits 0..22; exponent 255 encodes infinities and NaNs, exponent 0 the
subnormals m * 2^(-149), and otherwise (2^23 + m) * 2^(e - 150). -/
def decodeF32 (w : Nat) : F32Val :=
  let s := (w / 2147483648) % 2
  let e := (w / 8388608) % 256
  let m := w % 8388608
  if e = 255 then
    if m = 0 then (if s = 1 then F32Val.negInf else F32Val.posInf) else F32Val.nan
  else
    let mag : ℚ :=
      if e = 0 then (m : ℚ) / (2 : ℚ) ^ (149 : Nat)
      else ((8388608 + m : Nat) : ℚ) * (2 : ℚ) ^ e / (2 : ℚ) ^ (150 : Nat)
    if s = 1 then F32Val.finite (-mag) else F32Val.finite mag

/-- Translation of the float branch of the readFITS pixel loop: clamp the value
below by 0 and above by 65535, then cast to unsigned short (truncation toward
zero, which is the floor of the clamped nonnegative value). IEEE comparisons
send negative infinity through the first clamp and positive infinity through
the second; casting NaN is undefined in C and is given no value here. -/
def floatToPixel : F32Val → Option Nat
  | F32Val.nan => none
  | F32Val.negInf => some 0
  | F32Val.posInf => some 65535
  | F32Val.finite q =>
    let q1 := if q < 0 then 0 else q
    let q2 := if q1 > 65535 then 65535 else q1
    some (Int.toNat (truncQ q2))

/-- Chop a byte stream into native unsigned 16-bit words: on a little-endian
host the first byte is the low byte. -/
def u16OfStream (lend : Bool) : List Char → List Nat
  | b0 :: b1 :: rest =>
    (if lend then b0.toNat + 256 * b1.toNat else 256 * b0.toNat + b1.toNat)
      :: u16OfStream lend rest
  | _ => []

/-- Chop a byte stream into native unsigned 32-bit words: on a little-endian
host the first byte is the lowest byte. -/
def u32OfStream (lend : Bool) : List Char → List Nat
  | b0 :: b1 :: b2 :: b3 :: rest =>
    (if lend then
        b0.toNat + 256 * b1.toNat + 65536 * b2.toNat + 16777216 * b3.toNat
      else
        16777216 * b0.toNat + 65536 * b1.toNat + 256 * b2.toNat + b3.toNat)
      :: u32OfStream lend rest
  | _ => []

/-- Number of blank pad rows writeFITSHeader adds after the END row so the
total row count is a multiple of FITS_HROWS. -/
def fitsHeaderNpad (nvar : Nat) : Nat :=
  (FITS_HROWS - ((nvar + 1) % FITS_HROWS)) % FITS_HROWS

/-- An all-blank pad row (memset of a row with blanks). -/
def blankFITSRow : List Char := List.replicate 80 ' '

/-- The padded header block assembled by writeFITSHeader: the stored cards,
one END row, then blank rows up to a multiple of FITS_HROWS rows. -/
def fitsHeaderBlock (var : List FITSRow) : List FITSRow :=
  var ++ [fmtENDFITS] ++ List.replicate (fitsHeaderNpad var.length) blankFITSRow

/-- Byte sink standing for the file descriptor: none accepts everything, some c
accepts c further bytes. Writing n bytes (looping over partial writes, as every
write site does) succeeds exactly when n fits, else the transfer stops short
with the capacity exhausted. -/
def devWriteAll (dev : Option Nat) (n : Nat) : Bool × Option Nat :=
  match dev with
  | none => (true, none)
  | some c => if n ≤ c then (true, some (c - n)) else (false, some 0)

/-- Translation of writeFITSHeader: write the padded header block with a single
write call; a short transfer reports an error (the descriptor is untouched). -/
def writeFITSHeader (fip : FImage) (dev : Option Nat) : Except String (Option Nat) :=
  match devWriteAll dev (FITS_HCOLS * (fitsHeaderBlock fip.var).length) with
  | (true, dev2) => Except.ok dev2
  | (false, _) => Except.error ("Short write of FITS header")

/-- Keyword SIMPLE. -/
def kwSIMPLE : List Char := ['S', 'I', 'M', 'P', 'L', 'E']

/-- Keyword BITPIX. -/
def kwBITPIX : List Char := ['B', 'I', 'T', 'P', 'I', 'X']

/-- Keyword NAXIS. -/
def kwNAXIS : List Char := ['N', 'A', 'X', 'I', 'S']

/-- Keyword NAXIS1. -/
def kwNAXIS1 : List Char := ['N', 'A', 'X', 'I', 'S', '1']

/-- Keyword NAXIS2. -/
def kwNAXIS2 : List Char := ['N', 'A', 'X', 'I', 'S', '2']

/-- Keyword XFACTOR. -/
def kwXFACTOR : List Char := ['X', 'F', 'A', 'C', 'T', 'O', 'R']

/-- Keyword YFACTOR. -/
def kwYFACTOR : List Char := ['Y', 'F', 'A', 'C', 'T', 'O', 'R']

/-- Keyword OFFSET1. -/
def kwOFFSET1 : List Char := ['O', 'F', 'F', 'S', 'E', 'T', '1']

/-- Keyword OFFSET2. -/
def kwOFFSET2 : List Char := ['O', 'F', 'F', 'S', 'E', 'T', '2']

/-- Keyword EXPTIME. -/
def kwEXPTIME : List Char := ['E', 'X', 'P', 'T', 'I', 'M', 'E']

/-- Translation of the card-reading do-while loop of readFITSHeader: read
80-byte rows, counting them; a row whose first three bytes are E N D raises the
end flag without being stored; rows read before the flag is up are stored; the
loop runs until the flag is up and the row count is a multiple of FITS_HROWS.
A short read ends the loop successfully when the flag is up (short-file
tolerance) and is the error "header is short" otherwise; transport errors
(read < 0) are not modelled by the stream. -/
def readHeaderLoop (stream : List Char) (nrows : Nat) (sawend : Bool)
    (acc : List FITSRow) : Except String (List FITSRow × List Char) :=
  if stream.length < 80 then
    if sawend then Except.ok (acc, stream) else Except.error ("header is short")
  else
    let row := stream.take 80
    let isEnd : Bool := decide (row.take 3 = ['E', 'N', 'D'])
    let sawend2 := sawend || isEnd
    let acc2 := if sawend || isEnd then acc else acc ++ [row]
    if sawend2 = true ∧ (nrows + 1) % FITS_HROWS = 0 then
      Except.ok (acc2, stream.drop 80)
    else
      readHeaderLoop (stream.drop 80) (nrows + 1) sawend2 acc2
termination_by stream.length
decreasing_by
  simp only [List.length_drop]
  omega

/-- Higher-dimension check loop of getNAXIS (for i = 3; i <= n; i++): each
NAXISi must be present and equal to 1. The fuel argument is the number of
remaining iterations, (n - i + 1) at entry. -/
def checkNAXISHigh (fip : FImage) : Nat → Int → Except String Unit
  | 0, _ => Except.ok ()
  | fuel + 1, i =>
    let nm := kwNAXIS ++ intChars i
    match getIntFITS fip nm with
    | none => Except.error ("NAXIS higher dimension missing")
    | some ni =>
      if ni ≠ 1 then Except.error ("Require higher NAXIS dimension to be 1")
      else checkNAXISHigh fip fuel (i + 1)

/-- Translation of getNAXIS: require a NAXIS card, require every NAXISi card
with 3 <= i <= NAXIS to exist and hold 1, then require NAXIS1 and NAXIS2.
The NAXIS value itself is never compared against 2. -/
def getNAXIS (fip : FImage) : Except String (Int × Int) :=
  match getIntFITS fip kwNAXIS with
  | none => Except.error ("No NAXIS")
  | some n =>
    match checkNAXISHigh fip (n - 2).toNat 3 with
    | Except.error e => Except.error e
    | Except.ok _ =>
      match getIntFITS fip kwNAXIS1 with
      | none => Except.error ("No NAXIS1")
      | some n1 =>
        match getIntFITS fip kwNAXIS2 with
        | none => Except.error ("No NAXIS2")
        | some n2 => Except.ok (n1, n2)

/-- Result of a read operation: the error message if any, the Image Descriptor
as the call left it, and the unconsumed input (not meaningful on errors). -/
structure ReadResult where
  err : Option String
  fip : FImage
  rest : List Char
  deriving DecidableEq, Repr

/-- Validation-and-cracking stage of readFITSHeader, acting on the stored cards
only (the C code never touches the stream here): check SIMPLE, BITPIX and the
NAXIS family, then populate the optional fields; every error path applies
resetFImage to the descriptor, exactly as the goto err paths of the source do.
Returns the error message, if any, with the resulting descriptor. -/
def crackFITSHeader (var : List FITSRow) : Option String × FImage :=
  let fip0 : FImage := { initFImage with var := var }
  match getLogicalFITS fip0 kwSIMPLE with
  | none => (some ("File must claim to be a SIMPLE image."), resetFImage fip0)
  | some false => (some ("File must claim to be a SIMPLE image."), resetFImage fip0)
  | some true =>
    match getIntFITS fip0 kwBITPIX with
    | none =>
      (some ("File must include BITPIX value of 16, 32, or -32"), resetFImage fip0)
    | some i =>
      if i ≠ 16 ∧ i ≠ 32 ∧ i ≠ -32 then
        (some ("File must include BITPIX value of 16, 32, or -32"), resetFImage fip0)
      else
        let fip1 := { fip0 with bitpix := i }
        match getNAXIS fip1 with
        | Except.error e => (some e, resetFImage fip1)
        | Except.ok nn =>
          let fip2 := { fip1 with sw := nn.1, sh := nn.2 }
          let fip3 := match getIntFITS fip2 kwXFACTOR with
            | some v => { fip2 with bx := v }
            | none => fip2
          let fip4 := match getIntFITS fip3 kwYFACTOR with
            | some v => { fip3 with byv := v }
            | none => fip3
          let fip5 := match getIntFITS fip4 kwOFFSET1 with
            | some v => { fip4 with sx := v }
            | none => fip4
          let fip6 := match getIntFITS fip5 kwOFFSET2 with
            | some v => { fip5 with sy := v }
            | none => fip5
          let fip7 := match getRealFITS fip6 kwEXPTIME with
            | some d => { fip6 with dur := truncQ (d * 1000) }
            | none => fip6
          (none, fip7)

/-- Translation of readFITSHeader: initFImage, run the card loop, then crack
and validate the stored cards; the unconsumed stream is returned unchanged
(and is not meaningful when the loop itself failed). -/
def readFITSHeader (stream : List Char) : ReadResult :=
  match readHeaderLoop stream 0 false [] with
  | Except.error e => { err := some e, fip := resetFImage initFImage, rest := [] }
  | Except.ok (var, rest) =>
    { err := (crackFITSHeader var).1, fip := (crackFITSHeader var).2, rest := rest }

/-- Translation of readFITS: read and validate the header, read
width*height*(abs BITPIX)/8 bytes of pixel data, convert them to internal
unsigned 16-bit samples according to BITPIX, and normalize the bit-depth
marker to 16. A short pixel read resets the descriptor. Transport errors
(read < 0) and malloc failure are not modelled; casting a NaN float pixel is
undefined in C and modelled as 0 (no claim depends on it). -/
def readFITS (lend : Bool) (stream : List Char) : ReadResult :=
  let hr := readFITSHeader stream
  match hr.err with
  | some _ => hr
  | none =>
    let fip := hr.fip
    let npixels := (fip.sw * fip.sh).toNat
    let nbytesfile := npixels * fip.bitpix.natAbs / 8
    if hr.rest.length < nbytesfile then
      { err := some ("data is short"), fip := resetFImage fip, rest := [] }
    else
      let imdata := hr.rest.take nbytesfile
      let pix : List Nat :=
        if fip.bitpix = 16 then (u16OfStream lend imdata).map (unFITSPixel lend)
        else if fip.bitpix = 32 then
          (u32OfStream lend imdata).map (fun w => unFITSPixelInt lend w % 65536)
        else
          (u32OfStream lend imdata).map
            (fun w => (floatToPixel (decodeF32 (unFITSPixelFloatWord lend w))).getD 0)
      { err := none, fip := { fip with image := some pix, bitpix := 16 },
        rest := hr.rest.drop nbytesfile }

/-- In-place FITS-encoding of the first npix pixels of the buffer (the source
passes npix = sw*sh, the whole buffer of a well-formed descriptor). -/
def enFITSPixelsN (lend : Bool) (npix : Nat) (buf : List Nat) : List Nat :=
  (buf.take npix).map (enFITSPixel lend) ++ buf.drop npix

/-- In-place decoding of the first npix pixels of the buffer. -/
def unFITSPixelsN (lend : Bool) (npix : Nat) (buf : List Nat) : List Nat :=
  (buf.take npix).map (unFITSPixel lend) ++ buf.drop npix

/-- Result of writeFITS: the error message if any, the Image Descriptor as the
call left it, and the sink state. -/
structure WriteResult where
  err : Option String
  fip : FImage
  dev : Option Nat
  deriving DecidableEq, Repr

/-- Translation of writeFITS: fail at once when there is no pixel buffer
(descriptor untouched); write the padded header (descriptor untouched on
failure); convert the pixels to FITS form in place; write them, restoring the
pixels on a short write only when restore is set; pad the pixel section to a
2880-byte boundary (no restore on a padding failure, as in the source); on
success restore the pixels when restore is set. No path applies resetFImage. -/
def writeFITS (lend : Bool) (dev : Option Nat) (fip : FImage) (restore : Bool) :
    WriteResult :=
  match fip.image with
  | none => { err := some ("No pixels :-("), fip := fip, dev := dev }
  | some buf =>
    match writeFITSHeader fip dev with
    | Except.error e => { err := some e, fip := fip, dev := some 0 }
    | Except.ok dev1 =>
      let npix := (fip.sw * fip.sh).toNat
      let buf1 := enFITSPixelsN lend npix buf
      let fip1 := { fip with image := some buf1 }
      let nbytes := npix * 2
      match devWriteAll dev1 nbytes with
      | (false, _) =>
        let fip2 :=
          if restore then { fip1 with image := some (unFITSPixelsN lend npix buf1) }
          else fip1
        { err := some ("Short write of FITS pixels"), fip := fip2, dev := some 0 }
      | (true, dev2) =>
        match devWriteAll dev2 ((2880 - nbytes % 2880) % 2880) with
        | (false, _) => { err := some ("Error adding padding"), fip := fip1, dev := some 0 }
        | (true, dev3) =>
          let fip3 :=
            if restore then { fip1 with image := some (unFITSPixelsN lend npix buf1) }
            else fip1
          { err := none, fip := fip3, dev := dev3 }

/-- Concatenation of header rows into a byte stream. -/
def joinRows (rs : List (List Char)) : List Char := rs.foldr (· ++ ·) []

/-- Header rows of a file declaring NAXIS = 1 with NAXIS1 and NAXIS2 present. -/
def c2Rows : List (List Char) :=
  [fmtLogicalFITS kwSIMPLE 1 none,
   fmtIntFITS kwBITPIX 16 none,
   fmtIntFITS kwNAXIS 1 none,
   fmtIntFITS kwNAXIS1 4 none,
   fmtIntFITS kwNAXIS2 4 none,
   fmtENDFITS]

/-- The byte stream of the header above, ending right after the END card
(short-file tolerance applies once END is seen). -/
def c2Stream : List Char := joinRows c2Rows

/-- Number of cards in the store bearing the given padded field name. -/
def countName (var : List FITSRow) (field : List Char) : Nat :=
  match var with
  | [] => 0
  | r :: rest => (if r.take 8 = field then 1 else 0) + countName rest field

/-- A store with two cards bearing the same keyword FOO. -/
def c6DupFip : FImage :=
  { initFImage with
      var := [fmtIntFITS ['F', 'O', 'O'] 1 none, fmtIntFITS ['F', 'O', 'O'] 2 none] }

/-- Keyword OBJECT. -/
def kwOBJECT : List Char := ['O', 'B', 'J', 'E', 'C', 'T']

/-- A stored string card whose quoted value holds one leading and two trailing
interior blanks around M31. -/
def c7Row : List Char :=
  padName kwOBJECT ++ '=' :: ' ' :: squoteChar :: ' ' :: 'M' :: '3' :: '1'
    :: ' ' :: ' ' :: squoteChar :: List.replicate 62 ' '

/-- A descriptor holding only the string card above. -/
def c7Fip : FImage := { initFImage with var := [c7Row] }

/-- A descriptor with one header card and no pixel buffer. -/
def c3NoPixFip : FImage := { initFImage with var := [fmtIntFITS kwNAXIS 2 none] }

/-- Per-sample round trip: unFITSPixel after enFITSPixel is the identity on
every unsigned 16-bit sample value, on either host byte order. -/
theorem enFITSPixel_unFITSPixel_id (lend : Bool) (v : Nat) (h : v < 65536) :
    unFITSPixel lend (enFITSPixel lend v) = v := by
  have ht : (((v : Int) - ((BZERO : Nat) : Int)) % 65536).toNat
      = (v + 32768) % 65536 := by
    simp only [BZERO]
    omega
  have hnat : enFITSPixel lend v
      = if lend then
          (((v + 32768) % 65536) % 256) * 256 + (((v + 32768) % 65536) / 256) % 256
        else (v + 32768) % 65536 := by
    simp only [enFITSPixel]
    rw [ht]
  cases lend
  · rw [hnat]
    simp only [unFITSPixel, BZERO]
    rw [if_neg (by decide), if_neg (by decide)]
    omega
  · obtain ⟨a, b, ha, hb, hab⟩ :
        ∃ a b, a < 256 ∧ b < 256 ∧ (v + 32768) % 65536 = 256 * b + a :=
      ⟨(v + 32768) % 65536 % 256, (v + 32768) % 65536 / 256, by omega, by omega,
        by omega⟩
    have h1 : (v + 32768) % 65536 % 256 = a := by omega
    have h2 : (v + 32768) % 65536 / 256 = b := by omega
    rw [hnat, if_pos rfl, h1, h2]
    simp only [unFITSPixel, BZERO]
    rw [if_pos trivial]
    have h4 : b % 256 = b := by omega
    rw [h4]
    have h3 : (a * 256 + b) / 256 = a := by omega
    rw [h3]
    have h5 : a % 256 = a := by omega
    rw [h5]
    clear ht hnat h1 h2 h3 h4 h5
    omega

/-- C1: for every width and height at least 1 and every buffer of w*h internal
unsigned 16-bit pixels, encoding the buffer with enFITSPixels and decoding it
back with unFITSPixels reproduces the original pixel values exactly, on either
host byte order. -/
theorem c1_fits16_roundtrip (lend : Bool) (w h : Nat) (hw : 1 ≤ w) (hh : 1 ≤ h)
    (buf : List Nat) (hlen : buf.length = w * h) (hpix : ∀ v ∈ buf, v < 65536) :
    unFITSPixels lend (enFITSPixels lend buf) = buf := by
  clear hlen hw hh
  induction buf with
  | nil => rfl
  | cons a t ih =>
    simp only [enFITSPixels, unFITSPixels, List.map_cons] at ih ⊢
    rw [enFITSPixel_unFITSPixel_id lend a (hpix a (by simp)),
        ih (fun v hv => hpix v (by simp [hv]))]

/-- Closed instance of the C1 round trip at w = 1, h = 2, buffer [0, 65535],
little-endian host. -/
theorem c1_fits16_roundtrip_witness :
    unFITSPixels true (enFITSPixels true [0, 65535]) = [0, 65535] :=
  c1_fits16_roundtrip true 1 2 (by decide) (by decide) [0, 65535] (by decide)
    (by decide)

/-- C5: writeFITSHeader emits exactly the stored cards in order, then one END
card, then blank pad rows; the pad count is the least one making the row count
a multiple of 36, and the byte count is a multiple of 2880. -/
theorem c5_writeFITSHeader_block (var : List FITSRow) :
    fitsHeaderBlock var
        = var ++ fmtENDFITS :: List.replicate (fitsHeaderNpad var.length) blankFITSRow
      ∧ (fitsHeaderBlock var).length % FITS_HROWS = 0
      ∧ (∀ k, (var.length + 1 + k) % FITS_HROWS = 0 → fitsHeaderNpad var.length ≤ k)
      ∧ (FITS_HCOLS * (fitsHeaderBlock var).length) % 2880 = 0 := by
  refine ⟨by simp [fitsHeaderBlock], ?_, ?_, ?_⟩
  · simp [fitsHeaderBlock, fitsHeaderNpad, FITS_HROWS]
    omega
  · intro k hk
    simp only [fitsHeaderNpad, FITS_HROWS] at hk ⊢
    omega
  · simp [fitsHeaderBlock, fitsHeaderNpad, FITS_HCOLS, FITS_HROWS]
    omega

/-- Closed instance of C5: with an empty store the padded header holds 36 rows
(35 pad rows, the least k with (0+1+k) divisible by 36). -/
theorem c5_writeFITSHeader_block_witness :
    (fitsHeaderBlock []).length % FITS_HROWS = 0 ∧ fitsHeaderNpad 0 ≤ 35 :=
  ⟨(c5_writeFITSHeader_block []).2.1,
   (c5_writeFITSHeader_block []).2.2.1 35 (by decide)⟩

/-- C10: setCommentFITS with an empty text string appends no card at all; the
descriptor, in particular the Header Store and its length, is unchanged. -/
theorem c10_setCommentFITS_empty (fip : FImage) (name : List Char) :
    setCommentFITS fip name [] = fip := rfl

/-- Length of the padded keyword field is always 8. -/
theorem padName_length (name : List Char) : (padName name).length = 8 := by
  simp [padName, leftJust]
  omega

/-- Taking 8 from a row that starts with a padded keyword yields the keyword. -/
theorem take8_padName_append (name rest : List Char) :
    (padName name ++ rest).take 8 = padName name := by
  rw [List.take_append_eq_append_take, padName_length]
  simp [List.take_of_length_le (padName_length name).le]

/-- Cards built by fmtInlineComment over a keyword-led line keep the keyword in
the first 8 columns. -/
theorem fmtInlineComment_take8 (name mid : List Char) (comment : Option (List Char)) :
    (fmtInlineComment (padName name ++ mid) comment).take 8 = padName name := by
  have hlen : 8 ≤ ((padName name ++ mid).take 30).length := by
    simp [padName_length]
  simp only [fmtInlineComment]
  rw [List.take_append_eq_append_take, Nat.sub_eq_zero_of_le hlen, List.take_zero,
      List.append_nil, List.take_take]
  exact take8_padName_append name mid

/-- Cards built by fmtInlineComment over a line of length at least 30 have
exactly 80 columns. -/
theorem fmtInlineComment_length (line : List Char) (comment : Option (List Char))
    (h : 30 ≤ line.length) : (fmtInlineComment line comment).length = 80 := by
  cases comment <;> simp [fmtInlineComment, leftJust] <;> omega

/-- Integer cards are 80 columns long. -/
theorem fmtIntFITS_length (name : List Char) (v : Int) (c : Option (List Char)) :
    (fmtIntFITS name v c).length = 80 := by
  simp only [fmtIntFITS]
  apply fmtInlineComment_length
  simp [padName, leftJust]
  omega

/-- Integer cards carry the padded keyword in the first 8 columns. -/
theorem fmtIntFITS_take8 (name : List Char) (v : Int) (c : Option (List Char)) :
    (fmtIntFITS name v c).take 8 = padName name := by
  simp only [fmtIntFITS]
  exact fmtInlineComment_take8 name _ c

/-- Truncating an integer card to the 80 columns stored by addFImageVar is the
identity. -/
theorem fmtIntFITS_take80 (name : List Char) (v : Int) (c : Option (List Char)) :
    (fmtIntFITS name v c).take FITS_HCOLS = fmtIntFITS name v c :=
  List.take_of_length_le (by simp [fmtIntFITS_length, FITS_HCOLS])

/-- C9: a successful getCommentFITS copies the first 72 bytes of the matched
card into the caller's buffer verbatim (so it never NUL-terminates those 72
bytes itself), and writes the NUL byte into byte index 72, the 73rd byte, of
the matched card inside the Header Store, mutating the store's backing
storage. -/
theorem c9_getCommentFITS_mutates_store (fip : FImage) (name : List Char)
    (buf : List Char) (i : Nat) (rp : FITSRow)
    (hidx : findVarIdx fip.var (padName name) = some i)
    (hrow : fip.var[i]? = some rp) (hlen : rp.length = 80) :
    getCommentFITS fip name buf
        = some (rp.take 72 ++ buf.drop 72,
                { fip with var := fip.var.set i (rp.set 72 nulChar) })
      ∧ (rp.take 72 ++ buf.drop 72).take 72 = rp.take 72
      ∧ (rp.set 72 nulChar).getD 72 ' ' = nulChar := by
  refine ⟨by simp [getCommentFITS, hidx, hrow], ?_, ?_⟩
  · have h72 : (rp.take 72).length = 72 := by
      rw [List.length_take]
      omega
    rw [List.take_append_eq_append_take, h72, Nat.sub_self, List.take_zero,
        List.append_nil]
    simp [List.take_take]
  · have h72 : 72 < rp.length := by omega
    simp [List.getD, List.getElem?_set, h72]

/-- Closed instance of C9 on a one-card store. -/
theorem c9_getCommentFITS_witness :
    getCommentFITS { initFImage with var := [fmtIntFITS kwNAXIS 2 none] } kwNAXIS
        (List.replicate 80 'x')
      = some ((fmtIntFITS kwNAXIS 2 none).take 72 ++ (List.replicate 80 'x').drop 72,
              { initFImage with
                  var := [fmtIntFITS kwNAXIS 2 none].set 0
                    ((fmtIntFITS kwNAXIS 2 none).set 72 nulChar) }) :=
  (c9_getCommentFITS_mutates_store { initFImage with var := [fmtIntFITS kwNAXIS 2 none] }
    kwNAXIS (List.replicate 80 'x') 0 (fmtIntFITS kwNAXIS 2 none)
    (by decide) (by decide) (by decide)).1

/-- A found index is within the store. -/
theorem findVarIdx_lt_length (var : List FITSRow) (f : List Char) (i : Nat)
    (h : findVarIdx var f = some i) : i < var.length := by
  induction var generalizing i with
  | nil => simp [findVarIdx] at h
  | cons x rest ih =>
    by_cases hx : x.take 8 = f
    · simp [findVarIdx, hx] at h
      simp
      omega
    · simp only [findVarIdx, if_neg hx] at h
      cases hj : findVarIdx rest f with
      | none => rw [hj] at h; simp at h
      | some j =>
        rw [hj] at h
        simp at h
        have := ih j hj
        simp
        omega

/-- Replacing the found card with another card bearing the same name keeps the
same first-match index. -/
theorem findVarIdx_set (var : List FITSRow) (f : List Char) (i : Nat) (r : FITSRow)
    (hf : findVarIdx var f = some i) (hr : r.take 8 = f) :
    findVarIdx (var.set i r) f = some i := by
  induction var generalizing i with
  | nil => simp [findVarIdx] at hf
  | cons x rest ih =>
    by_cases hx : x.take 8 = f
    · simp [findVarIdx, hx] at hf
      subst hf
      simp [findVarIdx, hr]
    · simp only [findVarIdx, if_neg hx] at hf
      cases hj : findVarIdx rest f with
      | none => rw [hj] at hf; simp at hf
      | some j =>
        rw [hj] at hf
        simp at hf
        subst hf
        simp only [List.set_cons_succ, findVarIdx, if_neg hx]
        rw [ih j hj]
        rfl

/-- Appending a matching card to a store without a match finds it at the old
length. -/
theorem findVarIdx_append (var : List FITSRow) (f : List Char) (r : FITSRow)
    (hnone : findVarIdx var f = none) (hr : r.take 8 = f) :
    findVarIdx (var ++ [r]) f = some var.length := by
  induction var with
  | nil => simp [findVarIdx, hr]
  | cons x rest ih =>
    by_cases hx : x.take 8 = f
    · simp [findVarIdx, hx] at hnone
    · simp only [findVarIdx, if_neg hx] at hnone ⊢
      cases hj : findVarIdx rest f with
      | some j => rw [hj] at hnone; simp at hnone
      | none =>
        show Option.map (fun k => k + 1) (findVarIdx (rest ++ [r]) f)
          = some (x :: rest).length
        rw [ih hj]
        simp

/-- Setting the element at the old length of a one-longer list replaces the
appended element. -/
theorem set_append_length (l : List FITSRow) (a r : FITSRow) :
    (l ++ [a]).set l.length r = l ++ [r] := by
  induction l with
  | nil => rfl
  | cons x t ih => simp [ih]

/-- A store with a found card holds at least one card with the name. -/
theorem countName_pos (var : List FITSRow) (f : List Char) (i : Nat)
    (h : findVarIdx var f = some i) : 1 ≤ countName var f := by
  induction var generalizing i with
  | nil => simp [findVarIdx] at h
  | cons x rest ih =>
    by_cases hx : x.take 8 = f
    · simp [countName, hx]
    · simp only [findVarIdx, if_neg hx] at h
      cases hj : findVarIdx rest f with
      | none => rw [hj] at h; simp at h
      | some j =>
        simp only [countName, if_neg hx]
        have := ih j hj
        omega

/-- An unsuccessful find means no card bears the name. -/
theorem countName_zero (var : List FITSRow) (f : List Char)
    (h : findVarIdx var f = none) : countName var f = 0 := by
  induction var with
  | nil => rfl
  | cons x rest ih =>
    by_cases hx : x.take 8 = f
    · simp [findVarIdx, hx] at h
    · simp only [findVarIdx, if_neg hx] at h
      cases hj : findVarIdx rest f with
      | some j => rw [hj] at h; simp at h
      | none => simp only [countName, if_neg hx]; simp [ih hj]

/-- Replacing the first-found card by a card with the same name leaves the
name count unchanged. -/
theorem countName_set (var : List FITSRow) (f : List Char) (i : Nat) (r : FITSRow)
    (h : findVarIdx var f = some i) (hr : r.take 8 = f) :
    countName (var.set i r) f = countName var f := by
  induction var generalizing i with
  | nil => rfl
  | cons x rest ih =>
    by_cases hx : x.take 8 = f
    · simp [findVarIdx, hx] at h
      subst h
      simp [countName, hx, hr]
    · simp only [findVarIdx, if_neg hx] at h
      cases hj : findVarIdx rest f with
      | none => rw [hj] at h; simp at h
      | some j =>
        rw [hj] at h
        simp at h
        subst h
        simp only [List.set_cons_succ, countName, if_neg hx]
        rw [ih j hj]

/-- Appending a card adds one to the count of its own name. -/
theorem countName_append (var : List FITSRow) (f : List Char) (r : FITSRow)
    (hr : r.take 8 = f) : countName (var ++ [r]) f = countName var f + 1 := by
  induction var with
  | nil => simp [countName, hr]
  | cons x rest ih =>
    rw [List.cons_append]
    simp only [countName]
    rw [ih]
    omega

/-- Characterization of setIntFITS: replace the first match in place, else
append the fresh 80-column card; no other descriptor field changes. -/
theorem setIntFITS_eq (fip : FImage) (name : List Char) (v : Int)
    (c : Option (List Char)) :
    setIntFITS fip name v c
      = { fip with var :=
            match findVarIdx fip.var (padName name) with
            | some i => fip.var.set i (fmtIntFITS name v c)
            | none => fip.var ++ [fmtIntFITS name v c] } := by
  unfold setIntFITS addFImageVar
  cases h : findVarIdx fip.var (padName name) <;> simp [h, fmtIntFITS_take80]

/-- After a setIntFITS the card is found at the original first-match position,
or at the old store length when it was appended. -/
theorem findVarIdx_setIntFITS (fip : FImage) (name : List Char) (v : Int)
    (c : Option (List Char)) :
    findVarIdx (setIntFITS fip name v c).var (padName name)
      = some ((findVarIdx fip.var (padName name)).getD fip.var.length) := by
  rw [setIntFITS_eq]
  cases h : findVarIdx fip.var (padName name) with
  | none =>
    simp only [h, Option.getD_none]
    exact findVarIdx_append _ _ _ h (fmtIntFITS_take8 name v c)
  | some i =>
    simp only [h, Option.getD_some]
    exact findVarIdx_set _ _ i _ h (fmtIntFITS_take8 name v c)

/-- C6 counterexample: on a Header Store already holding two cards bearing FOO,
calling setIntFITS with (FOO, 5) and then (FOO, 7) leaves two cards bearing
FOO, not exactly one as the claim states for every Header Store. -/
theorem c6_setIntFITS_counterexample :
    countName (setIntFITS (setIntFITS c6DupFip ['F', 'O', 'O'] 5 none)
        ['F', 'O', 'O'] 7 none).var (padName ['F', 'O', 'O']) = 2
      ∧ ¬ (countName (setIntFITS (setIntFITS c6DupFip ['F', 'O', 'O'] 5 none)
        ['F', 'O', 'O'] 7 none).var (padName ['F', 'O', 'O']) = 1) := by
  constructor <;> decide

/-- C6 amended: two successive setIntFITS calls with the same name collapse to
the last one; on a store holding at most one card bearing the name the result
holds exactly one card bearing the name (with the latest value); the second
call never changes the store length; and the written card sits at the original
first-match position, or at the old store length when appended. -/
theorem c6_setIntFITS_amended :
    (∀ fip (name : List Char) v1 v2 c1 c2,
        setIntFITS (setIntFITS fip name v1 c1) name v2 c2
          = setIntFITS fip name v2 c2)
    ∧ (∀ fip (name : List Char) v c,
        countName fip.var (padName name) ≤ 1 →
        countName (setIntFITS fip name v c).var (padName name) = 1)
    ∧ (∀ fip (name : List Char) v1 v2 c1 c2,
        (setIntFITS (setIntFITS fip name v1 c1) name v2 c2).var.length
          = (setIntFITS fip name v1 c1).var.length)
    ∧ (∀ fip (name : List Char) v c,
        findVarIdx (setIntFITS fip name v c).var (padName name)
          = some ((findVarIdx fip.var (padName name)).getD fip.var.length)) := by
  have law : ∀ fip (name : List Char) v1 v2 c1 c2,
      setIntFITS (setIntFITS fip name v1 c1) name v2 c2
        = setIntFITS fip name v2 c2 := by
    intro fip name v1 v2 c1 c2
    rw [setIntFITS_eq fip name v1 c1]
    rw [setIntFITS_eq, setIntFITS_eq fip name v2 c2]
    cases h : findVarIdx fip.var (padName name) with
    | some i =>
      have h2 : findVarIdx (fip.var.set i (fmtIntFITS name v1 c1)) (padName name)
          = some i :=
        findVarIdx_set _ _ i _ h (fmtIntFITS_take8 name v1 c1)
      simp [h, h2, List.set_set]
    | none =>
      have h2 : findVarIdx (fip.var ++ [fmtIntFITS name v1 c1]) (padName name)
          = some fip.var.length :=
        findVarIdx_append _ _ _ h (fmtIntFITS_take8 name v1 c1)
      simp [h, h2, set_append_length]
  have cnt : ∀ fip (name : List Char) v c,
      countName fip.var (padName name) ≤ 1 →
      countName (setIntFITS fip name v c).var (padName name) = 1 := by
    intro fip name v c hle
    rw [setIntFITS_eq]
    cases h : findVarIdx fip.var (padName name) with
    | some i =>
      have hpos := countName_pos _ _ i h
      simp only [h]
      rw [countName_set _ _ i _ h (fmtIntFITS_take8 name v c)]
      omega
    | none =>
      simp only [h]
      rw [countName_append _ _ _ (fmtIntFITS_take8 name v c), countName_zero _ _ h]
  have len : ∀ fip (name : List Char) v1 v2 c1 c2,
      (setIntFITS (setIntFITS fip name v1 c1) name v2 c2).var.length
        = (setIntFITS fip name v1 c1).var.length := by
    intro fip name v1 v2 c1 c2
    rw [setIntFITS_eq (setIntFITS fip name v1 c1) name v2 c2]
    rw [findVarIdx_setIntFITS]
    simp [List.length_set]
  exact ⟨law, cnt, len, fun fip name v c => findVarIdx_setIntFITS fip name v c⟩

/-- Closed instance of the C6 amended claim: one setIntFITS on an empty store
leaves exactly one FOO card. -/
theorem c6_setIntFITS_amended_witness :
    countName (setIntFITS initFImage ['F', 'O', 'O'] 7 none).var
        (padName ['F', 'O', 'O']) = 1 :=
  c6_setIntFITS_amended.2.1 initFImage ['F', 'O', 'O'] 7 none (by decide)

/-- C7 counterexample: getStringFITS keeps the leading interior blank of the
stored value, returning " M31" and not the fully stripped "M31" the claim
predicts. -/
theorem c7_getStringFITS_counterexample :
    getStringFITS c7Fip kwOBJECT = some (' ' :: 'M' :: '3' :: '1' :: [])
      ∧ getStringFITS c7Fip kwOBJECT ≠ some ('M' :: '3' :: '1' :: []) := by
  constructor <;> decide

/-- A list containing the pivot element contains it in the Bool sense. -/
theorem contains_of_append_cons (content rest2 : List Char) (q : Char) :
    (content ++ q :: rest2).contains q = true := by
  induction content with
  | nil => simp
  | cons c t ih => simp [ih]

/-- takeWhile for "not the pivot" over a list splitting at the first pivot
occurrence yields the prefix. -/
theorem takeWhile_append_cons (content rest2 : List Char) (q : Char)
    (h : q ∉ content) :
    (content ++ q :: rest2).takeWhile (fun c => decide (c ≠ q)) = content := by
  induction content with
  | nil => simp [List.takeWhile]
  | cons c t ih =>
    have hc : c ≠ q := by
      intro he
      exact h (by simp [he])
    have ht : q ∉ t := fun hm => h (by simp [hm])
    simp only [List.cons_append, List.takeWhile_cons]
    rw [if_pos (decide_eq_true hc), ih ht]

/-- C7 amended: getStringFITS returns the value content up to the closing quote
with only the trailing interior blanks stripped (leading blanks are kept), and
returns the not-found result when the card lacks an opening quote in column 11
or a closing quote in columns 12..80. -/
theorem c7_getStringFITS_amended :
    (∀ fip (name : List Char) rp content rest2,
        findFImageVar fip name = some rp →
        rp.getD 10 nulChar = squoteChar →
        (rp.drop 11).take 69 = content ++ squoteChar :: rest2 →
        squoteChar ∉ content →
        getStringFITS fip name = some (stripTrailingSpaces content))
    ∧ (∀ fip (name : List Char) rp,
        findFImageVar fip name = some rp →
        rp.getD 10 nulChar ≠ squoteChar →
        getStringFITS fip name = none)
    ∧ (∀ fip (name : List Char) rp,
        findFImageVar fip name = some rp →
        squoteChar ∉ (rp.drop 11).take 69 →
        getStringFITS fip name = none) := by
  refine ⟨?_, ?_, ?_⟩
  · intro fip name rp content rest2 hf hq htail hnotin
    simp only [getStringFITS, hf]
    rw [if_neg (show ¬(rp.getD 10 nulChar ≠ squoteChar) from fun hne => hne hq),
        htail, if_pos (contains_of_append_cons content rest2 squoteChar),
        takeWhile_append_cons content rest2 squoteChar hnotin]
  · intro fip name rp hf hq
    simp only [getStringFITS, hf]
    rw [if_pos hq]
  · intro fip name rp hf hnot
    have hcon : ¬ (((rp.drop 11).take 69).contains squoteChar = true) := by
      intro hcon
      apply hnot
      simpa using hcon
    simp only [getStringFITS, hf]
    by_cases hq : rp.getD 10 nulChar ≠ squoteChar
    · rw [if_pos hq]
    · rw [if_neg hq, if_neg hcon]

/-- Closed instance of the C7 amended claim at the counterexample card: the
returned value is the content with trailing blanks stripped only. -/
theorem c7_getStringFITS_amended_witness :
    getStringFITS c7Fip kwOBJECT
      = some (stripTrailingSpaces (' ' :: 'M' :: '3' :: '1' :: ' ' :: ' ' :: [])) :=
  c7_getStringFITS_amended.1 c7Fip kwOBJECT c7Row
    (' ' :: 'M' :: '3' :: '1' :: ' ' :: ' ' :: []) (List.replicate 62 ' ')
    (by decide) (by decide) (by decide) (by decide)

/-- Once the END flag is up the loop stores nothing more: it consumes rows (or
breaks at a short read) and returns the accumulator unchanged. -/
theorem readHeaderLoop_sawend :
    ∀ (n : Nat) (stream : List Char), stream.length ≤ n →
    ∀ (nrows : Nat) (acc : List FITSRow),
      ∃ rest, readHeaderLoop stream nrows true acc = Except.ok (acc, rest) := by
  intro n
  induction n with
  | zero =>
    intro stream hlen nrows acc
    rw [readHeaderLoop, if_pos (by omega), if_pos rfl]
    exact ⟨stream, rfl⟩
  | succ n ih =>
    intro stream hlen nrows acc
    rw [readHeaderLoop]
    by_cases hs : stream.length < 80
    · rw [if_pos hs, if_pos rfl]
      exact ⟨stream, rfl⟩
    · rw [if_neg hs]
      simp only [Bool.true_or, if_pos rfl]
      by_cases hmod : (nrows + 1) % FITS_HROWS = 0
      · rw [if_pos ⟨trivial, hmod⟩]
        exact ⟨stream.drop 80, rfl⟩
      · rw [if_neg (by intro hcon; exact hmod hcon.2)]
        apply ih
        simp only [List.length_drop]
        omega

/-- Every row before the first END-prefixed row is stored in order; the
END-prefixed row raises the flag without being stored; later input is never
stored. -/
theorem readHeaderLoop_upto_end (ps : List FITSRow) :
    ∀ (nrows : Nat) (acc : List FITSRow) (r rest : List Char),
      (∀ p ∈ ps, p.length = 80 ∧ p.take 3 ≠ ['E', 'N', 'D']) →
      r.length = 80 → r.take 3 = ['E', 'N', 'D'] →
      ∃ rest2, readHeaderLoop (joinRows ps ++ (r ++ rest)) nrows false acc
          = Except.ok (acc ++ ps, rest2) := by
  induction ps with
  | nil =>
    intro nrows acc r rest hps hr hrEnd
    have hstream : joinRows [] ++ (r ++ rest) = r ++ rest := by simp [joinRows]
    rw [hstream, readHeaderLoop]
    have hlen : ¬ (r ++ rest).length < 80 := by
      simp [List.length_append, hr]
    rw [if_neg hlen]
    have hrow : (r ++ rest).take 80 = r := by
      rw [List.take_append_eq_append_take, hr, Nat.sub_self, List.take_zero,
          List.append_nil]
      exact List.take_of_length_le hr.le
    have hdrop : (r ++ rest).drop 80 = rest := by
      rw [List.drop_append_eq_append_drop, hr, Nat.sub_self, List.drop_zero]
      simp [List.drop_of_length_le hr.le]
    rw [hrow]
    simp only [hrEnd, decide_eq_true_eq, Bool.false_or, decide_True, if_pos rfl]
    by_cases hmod : (nrows + 1) % FITS_HROWS = 0
    · rw [if_pos ⟨trivial, hmod⟩]
      exact ⟨rest, by rw [hdrop]; simp⟩
    · rw [if_neg (by intro hcon; exact hmod hcon.2)]
      have := readHeaderLoop_sawend ((r ++ rest).drop 80).length ((r ++ rest).drop 80)
        le_rfl (nrows + 1) acc
      obtain ⟨rest2, h2⟩ := this
      exact ⟨rest2, by simpa using h2⟩
  | cons p ps ih =>
    intro nrows acc r rest hps hr hrEnd
    have hp := hps p (by simp)
    have hstream : joinRows (p :: ps) ++ (r ++ rest)
        = p ++ (joinRows ps ++ (r ++ rest)) := by
      simp [joinRows]
    rw [hstream, readHeaderLoop]
    have hlen : ¬ (p ++ (joinRows ps ++ (r ++ rest))).length < 80 := by
      simp [List.length_append, hp.1]
    rw [if_neg hlen]
    have hrow : (p ++ (joinRows ps ++ (r ++ rest))).take 80 = p := by
      rw [List.take_append_eq_append_take, hp.1, Nat.sub_self, List.take_zero,
          List.append_nil]
      exact List.take_of_length_le hp.1.le
    have hdrop : (p ++ (joinRows ps ++ (r ++ rest))).drop 80
        = joinRows ps ++ (r ++ rest) := by
      rw [List.drop_append_eq_append_drop, hp.1, Nat.sub_self, List.drop_zero]
      simp [List.drop_of_length_le hp.1.le]
    rw [hrow]
    have hnotEnd : decide (p.take 3 = ['E', 'N', 'D']) = false := by
      simp [hp.2]
    simp only [hnotEnd, Bool.false_or, Bool.or_false, if_neg]
    rw [if_neg (by intro hcon; exact absurd hcon.1 (by simp))]
    rw [hdrop]
    have := ih (nrows + 1) (acc ++ [p]) r rest
      (fun q hq => hps q (by simp [hq])) hr hrEnd
    obtain ⟨rest2, h2⟩ := this
    refine ⟨rest2, ?_⟩
    simpa using h2

/-- C8: during the header-reading loop of readFITSHeader a card is treated as
the terminating END record exactly when its first three bytes are E N D: every
earlier card is stored in order, the END-prefixed card itself (whatever
columns 4..8 hold, for example ENDX) is not added to the Header Store, and no
later input is stored. -/
theorem c8_end_prefix_terminates (ps : List FITSRow) (r rest : List Char)
    (hps : ∀ p ∈ ps, p.length = 80 ∧ p.take 3 ≠ ['E', 'N', 'D'])
    (hr : r.length = 80) (hrEnd : r.take 3 = ['E', 'N', 'D']) :
    ∃ rest2, readHeaderLoop (joinRows ps ++ (r ++ rest)) 0 false []
        = Except.ok (ps, rest2) := by
  have := readHeaderLoop_upto_end ps 0 [] r rest hps hr hrEnd
  simpa using this

/-- Closed instance of C8: a lone ENDX card terminates an otherwise empty
header, storing nothing. -/
theorem c8_end_prefix_terminates_witness :
    ∃ rest2,
      readHeaderLoop
          (joinRows [] ++ (('E' :: 'N' :: 'D' :: 'X' :: List.replicate 76 ' ') ++ []))
          0 false []
        = Except.ok ([], rest2) :=
  c8_end_prefix_terminates [] ('E' :: 'N' :: 'D' :: 'X' :: List.replicate 76 ' ') []
    (by decide) (by decide) (by decide)

/-- C2 counterexample: a complete header declaring NAXIS = 1 (with NAXIS1 and
NAXIS2 cards present) passes the entire header validation of readFITSHeader:
no header-validation error is raised and the dimensions are accepted. -/
theorem c2_naxis1_accepted_counterexample :
    (readFITSHeader c2Stream).err = none
      ∧ getIntFITS (readFITSHeader c2Stream).fip kwNAXIS = some 1
      ∧ (readFITSHeader c2Stream).fip.sw = 4
      ∧ (readFITSHeader c2Stream).fip.sh = 4 := by
  obtain ⟨rest2, hloop⟩ :=
    readHeaderLoop_upto_end (c2Rows.take 5) 0 [] fmtENDFITS [] (by decide)
      (by decide) (by decide)
  have hstream : joinRows (c2Rows.take 5) ++ (fmtENDFITS ++ []) = c2Stream := by
    decide
  rw [hstream] at hloop
  simp only [List.nil_append] at hloop
  simp only [readFITSHeader, hloop]
  decide

/-- C2 amended: the header validation never compares NAXIS against 2; whenever
the NAXIS card holds any integer below 2 and NAXIS1 and NAXIS2 cards are
present, getNAXIS succeeds with their values (the higher-dimension loop runs
zero times). -/
theorem c2_getNAXIS_amended (fip : FImage) (n n1 n2 : Int)
    (hn : getIntFITS fip kwNAXIS = some n) (hlt : n < 2)
    (h1 : getIntFITS fip kwNAXIS1 = some n1)
    (h2 : getIntFITS fip kwNAXIS2 = some n2) :
    getNAXIS fip = Except.ok (n1, n2) := by
  have hfuel : (n - 2).toNat = 0 := by omega
  simp [getNAXIS, hn, hfuel, checkNAXISHigh, h1, h2]

/-- Closed instance of the C2 amended claim: getNAXIS accepts NAXIS = 1 when
NAXIS1 and NAXIS2 are present. -/
theorem c2_getNAXIS_amended_witness :
    getNAXIS { initFImage with
        var := [fmtIntFITS kwNAXIS 1 none, fmtIntFITS kwNAXIS1 4 none,
                fmtIntFITS kwNAXIS2 4 none] } = Except.ok (4, 4) :=
  c2_getNAXIS_amended _ 1 4 4 (by decide) (by decide) (by decide) (by decide)

/-- Every failing validation of the stored cards leaves the descriptor reset
to the initialized default state. -/
theorem crackFITSHeader_reset (var : List FITSRow) :
    (crackFITSHeader var).1.isSome = true → (crackFITSHeader var).2 = initFImage := by
  simp only [crackFITSHeader]
  split
  · intro _; rfl
  · intro _; rfl
  · split
    · intro _; rfl
    · split
      · intro _; rfl
      · split
        · intro _; rfl
        · intro hcon
          simp at hcon

/-- The loop errors out at once on an empty stream with no END seen. -/
theorem readHeaderLoop_nil :
    readHeaderLoop [] 0 false [] = Except.error ("header is short") := by
  rw [readHeaderLoop]
  simp

/-- An empty stream makes readFITSHeader fail. -/
theorem readFITSHeader_nil_err : (readFITSHeader []).err.isSome = true := by
  simp only [readFITSHeader, readHeaderLoop_nil]
  rfl

/-- C3 counterexample: a failing writeFITS call (missing pixel buffer) returns
the error but leaves the descriptor exactly as passed, which is not the
initialized default state: no reset happens. -/
theorem c3_writeFITS_no_reset_counterexample :
    (writeFITS true none c3NoPixFip true).err = some ("No pixels :-(")
      ∧ (writeFITS true none c3NoPixFip true).fip = c3NoPixFip
      ∧ c3NoPixFip ≠ initFImage := by
  refine ⟨?_, ?_, ?_⟩ <;> decide

/-- C3 amended: every failing readFITSHeader and readFITS call leaves the
descriptor reset to the initialized default state, but writeFITS never resets:
its failures leave the Header Store untouched, and the missing-pixel-buffer
failure returns with the descriptor exactly as passed. -/
theorem c3_failure_reset_amended :
    (∀ stream, (readFITSHeader stream).err.isSome = true →
        (readFITSHeader stream).fip = initFImage)
    ∧ (∀ lend stream, (readFITS lend stream).err.isSome = true →
        (readFITS lend stream).fip = initFImage)
    ∧ (∀ lend dev fip restore,
        (writeFITS lend dev fip restore).fip.var = fip.var)
    ∧ (∀ lend dev fip restore, fip.image = none →
        writeFITS lend dev fip restore
          = { err := some ("No pixels :-("), fip := fip, dev := dev }) := by
  have hA : ∀ stream, (readFITSHeader stream).err.isSome = true →
      (readFITSHeader stream).fip = initFImage := by
    intro s
    unfold readFITSHeader
    split
    · intro _
      rfl
    · intro h
      exact crackFITSHeader_reset _ h
  have hB : ∀ lend stream, (readFITS lend stream).err.isSome = true →
      (readFITS lend stream).fip = initFImage := by
    intro lend s
    simp only [readFITS]
    split
    · intro h
      exact hA s h
    · split
      · intro _
        rfl
      · intro hcon
        simp at hcon
  have hC : ∀ lend dev fip restore,
      (writeFITS lend dev fip restore).fip.var = fip.var := by
    intro lend dev fip restore
    simp only [writeFITS]
    split
    · rfl
    · split
      · rfl
      · split
        · split <;> rfl
        · split
          · rfl
          · split <;> rfl
  have hD : ∀ lend dev fip restore, fip.image = none →
      writeFITS lend dev fip restore
        = { err := some ("No pixels :-("), fip := fip, dev := dev } := by
    intro lend dev fip restore h
    simp only [writeFITS, h]
  exact ⟨hA, hB, hC, hD⟩

/-- Closed instance of the C3 amended claim: the failing empty-stream header
read leaves the reset default descriptor, and the failing no-pixel write
returns the descriptor exactly as passed. -/
theorem c3_failure_reset_amended_witness :
    (readFITSHeader []).fip = initFImage
      ∧ writeFITS true none c3NoPixFip true
          = { err := some ("No pixels :-("), fip := c3NoPixFip, dev := none } :=
  ⟨c3_failure_reset_amended.1 [] readFITSHeader_nil_err,
   c3_failure_reset_amended.2.2.2 true none c3NoPixFip true (by decide)⟩

/-- C4: a 32-bit float sample (BITPIX = -32) read on a little-endian host is
stored as the 4-byte-swapped IEEE-754 value clamped to the closed range
[0, 65535] and then truncated to an unsigned 16-bit integer; no BZERO bias
enters anywhere. Every sample except the NaN bit patterns is covered: finite
values take the clamp-then-truncate formula, positive infinity passes the
upper clamp (inf > 65535 holds in IEEE comparison) giving 65535, and negative
infinity passes the lower clamp giving 0. Only the NaN cast, undefined in C,
is excluded. -/
theorem c4_float_clamp_truncate (w : Nat) :
    (∀ q : ℚ, decodeF32 (swap32 w) = F32Val.finite q →
        floatToPixel (decodeF32 (unFITSPixelFloatWord true w))
          = some (Int.toNat (truncQ (max 0 (min 65535 q)))))
    ∧ (decodeF32 (swap32 w) = F32Val.posInf →
        floatToPixel (decodeF32 (unFITSPixelFloatWord true w)) = some 65535)
    ∧ (decodeF32 (swap32 w) = F32Val.negInf →
        floatToPixel (decodeF32 (unFITSPixelFloatWord true w)) = some 0) := by
  have hw : unFITSPixelFloatWord true w = swap32 w := rfl
  refine ⟨?_, ?_, ?_⟩
  · intro q hq
    rw [hw, hq]
    simp only [floatToPixel]
    by_cases h1 : q < 0
    · rw [if_pos h1, if_neg (by norm_num)]
      rw [min_eq_right (le_of_lt (lt_of_lt_of_le h1 (by norm_num))),
          max_eq_left (le_of_lt h1)]
    · push_neg at h1
      by_cases h2 : q > 65535
      · rw [if_neg (not_lt.mpr h1), if_pos h2]
        rw [min_eq_left (le_of_lt h2),
            max_eq_right (by norm_num : (0:ℚ) ≤ 65535)]
      · push_neg at h2
        rw [if_neg (not_lt.mpr h1), if_neg (not_lt.mpr h2)]
        rw [min_eq_right h2, max_eq_right h1]
  · intro hq
    rw [hw, hq]
    rfl
  · intro hq
    rw [hw, hq]
    rfl

/-- Closed instance of C4: the word holding the big-endian bytes of the float
1.5 decodes, after the 4-byte swap, to pixel value 1, and the word holding the
big-endian bytes of positive infinity (0x7F800000) clamps to 65535. -/
theorem c4_float_clamp_truncate_witness :
    floatToPixel (decodeF32 (unFITSPixelFloatWord true 49215))
        = some (Int.toNat (truncQ (max 0 (min 65535 (3 / 2)))))
      ∧ floatToPixel (decodeF32 (unFITSPixelFloatWord true 32895)) = some 65535 :=
  ⟨(c4_float_clamp_truncate 49215).1 (3 / 2) (by norm_num [decodeF32, swap32]),
   (c4_float_clamp_truncate 32895).2.1 (by decide)⟩
